import Mathlib

/-
Shallow embedding of the emulator core of `samsoftn64emu0.1.py`:
the `N64Memory` class (address translation, 32-bit reads and writes, ROM
loading with byte-order normalization) and the `MIPSR4300i` interpreter
(decode/execute dispatch, `_special` dispatch, `step`).

Conventions of the embedding:
* Python `bytearray` buffers are modeled as total functions `Nat → Nat`
  from byte offset to byte value, together with the fixed capacities
  `rdramSize` / `romSize` that the source's bounds checks use
  (`len(self.rdram)` and `len(self.rom)`).
* Python unbounded integers are `Nat` (or `Int` where a subtraction can
  go negative, namely SUB/SUBU).  Low-bit masks and shifts are written
  arithmetically: `x & 0xFFFFFFFF` is `x % 2^32`, `x & 0x1F` is
  `x % 32`, `x >> k` is `x / 2^k`, `x << k` is `x * 2^k`,
  `x & 0xF0000000` (bits 28..31) is `x / 2^28 % 16 * 2^28`, and
  `imm | 0xFFFFFFFFFFFF0000` for `imm < 2^16` (disjoint bit ranges) is
  `0xFFFFFFFFFFFF0000 + imm`.  Bitwise and/or between data values
  (ANDI, ORI, AND, OR) stay `&&&` / `|||`.  The test
  `imm & 0x8000` being truthy is `0x8000 ≤ imm` since `imm < 2^16`.
* `struct.unpack('>I', b[p:p+4])[0]` is `beWord b p`; `struct.pack('>I', w)`
  stored at `p..p+3` is the four big-endian byte writes of `w`.
* The register file (a Python list of 32 integers, always indexed by
  values masked with `0x1F`, hence in `0..31`) is a function `Nat → Nat`;
  list element assignment is `Function.update`.
* `load_rom_data` returns the pair of the Python return value
  (`Option Nat`, `none` being Python's `None` failure result) and the
  memory after the call.
-/

def rdramSize : Nat := 8 * 1024 * 1024

def romSize : Nat := 64 * 1024 * 1024

/-- Big-endian 32-bit word read from a byte buffer: `struct.unpack('>I', b[p:p+4])[0]`. -/
def beWord (b : Nat → Nat) (p : Nat) : Nat :=
  b p * 2 ^ 24 + b (p + 1) * 2 ^ 16 + b (p + 2) * 2 ^ 8 + b (p + 3)

@[ext] structure N64Memory where
  rdram : Nat → Nat
  rom : Nat → Nat
  endian_mode : String

/-- `N64Memory.__init__`: zeroed 8 MiB rdram, zeroed 64 MiB rom, big-endian tag. -/
def N64Memory.init : N64Memory :=
  { rdram := fun _ => 0, rom := fun _ => 0, endian_mode := "Z64 (Big-Endian)" }

/-- `N64Memory.virtual_to_physical` (the `self` argument is unused by the source). -/
def virtual_to_physical (addr : Nat) : Nat :=
  let a := addr % 2 ^ 32
  if 0x80000000 ≤ a ∧ a ≤ 0xBFFFFFFF then a % 2 ^ 29 else a

/-- `N64Memory.read32`. -/
def N64Memory.read32 (m : N64Memory) (addr : Nat) : Nat :=
  let v := addr % 2 ^ 32
  if 0x10000000 ≤ v ∧ v < 0x14000000 ∧ v - 0x10000000 + 3 < romSize then
    beWord m.rom (v - 0x10000000)
  else
    let p := virtual_to_physical addr
    if p + 3 < rdramSize then beWord m.rdram p else 0

/-- `N64Memory.write32`. -/
def N64Memory.write32 (m : N64Memory) (addr val : Nat) : N64Memory :=
  let v := addr % 2 ^ 32
  if 0x10000000 ≤ v ∧ v < 0x14000000 then m
  else
    let p := virtual_to_physical addr
    if p + 3 < rdramSize then
      { m with rdram := fun i =>
          if i = p then val % 2 ^ 32 / 2 ^ 24 % 256
          else if i = p + 1 then val % 2 ^ 32 / 2 ^ 16 % 256
          else if i = p + 2 then val % 2 ^ 32 / 2 ^ 8 % 256
          else if i = p + 3 then val % 2 ^ 32 % 256
          else m.rdram i }
    else m

/-- `self.rom[:len(data)] = data`: overwrite the first `data.length` bytes. -/
def writeBytes (b : Nat → Nat) (data : List Nat) : Nat → Nat :=
  fun i => if i < data.length then data.getD i 0 else b i

/-- The `0x37` loop of `load_rom_data`: reverse every complete aligned
4-byte group (`data[i:i+4] = data[i:i+4][::-1]`), leave a trailing
partial group untouched. -/
def swapChunks : List Nat → List Nat
  | b0 :: b1 :: b2 :: b3 :: rest => b3 :: b2 :: b1 :: b0 :: swapChunks rest
  | rest => rest

/-- `struct.unpack('<I', [b0,b1,b2,b3])[0]`: little-endian 32-bit word value. -/
def leWord (b0 b1 b2 b3 : Nat) : Nat := b0 + b1 * 2 ^ 8 + b2 * 2 ^ 16 + b3 * 2 ^ 24

/-- `struct.pack('>I', w)`: the four big-endian bytes of a 32-bit word. -/
def bePack (w : Nat) : List Nat :=
  [w / 2 ^ 24 % 256, w / 2 ^ 16 % 256, w / 2 ^ 8 % 256, w % 256]

/-- The `0x40` loop of `load_rom_data`: reinterpret every complete aligned
4-byte group as a little-endian 32-bit word (`struct.unpack('<I', ...)`)
and re-emit it big-endian (`struct.pack('>I', w)`), leaving a trailing
partial group untouched. -/
def leToBe : List Nat → List Nat
  | b0 :: b1 :: b2 :: b3 :: rest => bePack (leWord b0 b1 b2 b3) ++ leToBe rest
  | rest => rest

/-- `N64Memory.load_rom_data`, returning the Python result and the memory
after the call. -/
def N64Memory.load_rom_data (m : N64Memory) (raw : List Nat) : Option Nat × N64Memory :=
  if raw.length < 4 then (none, m)
  else
    let fb := raw.getD 0 0
    if fb = 0x80 then
      (some raw.length,
        { m with endian_mode := "Z64 (Big-Endian)", rom := writeBytes m.rom raw })
    else if fb = 0x37 then
      let data := swapChunks raw
      (some data.length,
        { m with endian_mode := "V64 (Byte-swapped)", rom := writeBytes m.rom data })
    else if fb = 0x40 then
      let data := leToBe raw
      (some data.length,
        { m with endian_mode := "N64 (Little-Endian)", rom := writeBytes m.rom data })
    else
      (none, { m with endian_mode := "Unknown" })

@[ext] structure CPU where
  mem : N64Memory
  gpr : Nat → Nat
  pc : Nat
  next_pc : Nat
  hi : Nat
  lo : Nat
  cycles : Nat
  running : Bool

/-- `MIPSR4300i.__init__` (identical to `reset`), over a given memory. -/
def CPU.init (m : N64Memory) : CPU :=
  { mem := m, gpr := fun _ => 0, pc := 0xA4000040, next_pc := 0xA4000040 + 4,
    hi := 0, lo := 0, cycles := 0, running := false }

/-- `MIPSR4300i.reset`. -/
def CPU.reset (c : CPU) : CPU := CPU.init c.mem

/-- `MIPSR4300i.fetch`. -/
def CPU.fetch (c : CPU) : Nat := c.mem.read32 c.pc

/-- `MIPSR4300i._special`: secondary dispatch on the function code. -/
def CPU.specialDispatch (c : CPU) (rs rt rd sh fn : Nat) : CPU :=
  if fn = 0x00 then { c with gpr := Function.update c.gpr rd (c.gpr rt * 2 ^ sh % 2 ^ 64) }
  else if fn = 0x02 then { c with gpr := Function.update c.gpr rd (c.gpr rt / 2 ^ sh % 2 ^ 64) }
  else if fn = 0x08 then { c with next_pc := c.gpr rs }
  else if fn = 0x09 then
    { c with gpr := Function.update c.gpr rd (c.pc + 8), next_pc := c.gpr rs }
  else if fn = 0x12 then { c with gpr := Function.update c.gpr rd c.lo }
  else if fn = 0x18 then
    let r := c.gpr rs * c.gpr rt
    { c with lo := r % 2 ^ 32, hi := r / 2 ^ 32 % 2 ^ 32 }
  else if fn = 0x20 ∨ fn = 0x21 then
    { c with gpr := Function.update c.gpr rd ((c.gpr rs + c.gpr rt) % 2 ^ 64) }
  else if fn = 0x22 ∨ fn = 0x23 then
    { c with gpr := Function.update c.gpr rd (((c.gpr rs : Int) - (c.gpr rt : Int)) % 2 ^ 64).toNat }
  else if fn = 0x24 then { c with gpr := Function.update c.gpr rd (c.gpr rs &&& c.gpr rt) }
  else if fn = 0x25 then { c with gpr := Function.update c.gpr rd (c.gpr rs ||| c.gpr rt) }
  else c

/-- `MIPSR4300i.decode_execute`. -/
def CPU.decode_execute (c : CPU) (ins : Nat) : CPU :=
  let op := ins / 2 ^ 26 % 64
  let rs := ins / 2 ^ 21 % 32
  let rt := ins / 2 ^ 16 % 32
  let rd := ins / 2 ^ 11 % 32
  let sh := ins / 2 ^ 6 % 32
  let fn := ins % 64
  let imm := ins % 2 ^ 16
  let tgt := ins % 2 ^ 26
  let imm_se := if 0x8000 ≤ imm then 0xFFFFFFFFFFFF0000 + imm else imm
  let c0 := { c with gpr := Function.update c.gpr 0 0 }
  let c1 :=
    if op = 0x00 then c0.specialDispatch rs rt rd sh fn
    else if op = 0x02 then
      { c0 with next_pc := c0.pc / 2 ^ 28 % 16 * 2 ^ 28 + tgt * 4 }
    else if op = 0x03 then
      { c0 with gpr := Function.update c0.gpr 31 (c0.pc + 8),
                next_pc := c0.pc / 2 ^ 28 % 16 * 2 ^ 28 + tgt * 4 }
    else if op = 0x04 ∧ c0.gpr rs = c0.gpr rt then
      { c0 with next_pc := c0.pc + 4 + imm_se * 4 }
    else if op = 0x05 ∧ c0.gpr rs ≠ c0.gpr rt then
      { c0 with next_pc := c0.pc + 4 + imm_se * 4 }
    else if op = 0x08 ∨ op = 0x09 then
      { c0 with gpr := Function.update c0.gpr rt ((c0.gpr rs + imm_se) % 2 ^ 64) }
    else if op = 0x0C then
      { c0 with gpr := Function.update c0.gpr rt (c0.gpr rs &&& imm) }
    else if op = 0x0D then
      { c0 with gpr := Function.update c0.gpr rt (c0.gpr rs ||| imm) }
    else if op = 0x0F then
      { c0 with gpr := Function.update c0.gpr rt (imm * 2 ^ 16 % 2 ^ 64) }
    else if op = 0x23 then
      { c0 with gpr := Function.update c0.gpr rt (c0.mem.read32 (c0.gpr rs + imm_se)) }
    else if op = 0x2B then
      { c0 with mem := c0.mem.write32 (c0.gpr rs + imm_se) (c0.gpr rt) }
    else c0
  { c1 with gpr := Function.update c1.gpr 0 0, cycles := c1.cycles + 1 }

/-- `MIPSR4300i.step`. -/
def CPU.step (c : CPU) : CPU :=
  let c1 := c.decode_execute c.fetch
  { c1 with pc := c1.next_pc, next_pc := c1.next_pc + 4 }

/-- Primary opcodes handled by `decode_execute` (every `elif op==...` test). -/
def handledOps : List Nat := [0x00, 0x02, 0x03, 0x04, 0x05, 0x08, 0x09, 0x0C, 0x0D, 0x0F, 0x23, 0x2B]

/-- Function codes handled by the `_special` dispatch. -/
def handledFns : List Nat := [0x00, 0x02, 0x08, 0x09, 0x12, 0x18, 0x20, 0x21, 0x22, 0x23, 0x24, 0x25]

/-- An instruction word whose primary opcode (and, for opcode 0, whose
function code) falls outside the supported set. -/
def unknownInstr (ins : Nat) : Prop :=
  (ins / 2 ^ 26 % 64 ∉ handledOps) ∨ (ins / 2 ^ 26 % 64 = 0 ∧ ins % 64 ∉ handledFns)

instance (ins : Nat) : Decidable (unknownInstr ins) := by
  unfold unknownInstr; infer_instance

/-- States reachable from a freshly constructed machine (equivalently, from
`reset()` of a fresh machine) by `step()` calls and `loadImage` calls on
byte inputs. -/
inductive Reachable : CPU → Prop
  | boot : Reachable (CPU.init N64Memory.init)
  | step {c : CPU} : Reachable c → Reachable c.step
  | load {c : CPU} {raw : List Nat} : Reachable c → (∀ b ∈ raw, b < 256) →
      Reachable { c with mem := (c.mem.load_rom_data raw).2 }

/-- A 12-byte image: magic byte `0x80` followed by the words `0x0C000002`
(JAL with target field 2) at offset 4 and `0x10008000` (BEQ r0, r0 with
immediate `0x8000`, a taken branch with the most negative offset) at
offset 8. -/
def rawRom : List Nat := [0x80, 0, 0, 0, 0x0C, 0, 0, 2, 0x10, 0, 0x80, 0]

/-- The memory after loading `rawRom` into a fresh machine. -/
def loadedMem : N64Memory := (N64Memory.init.load_rom_data rawRom).2

/-- A state whose fetch yields `0x80000000` (an unsupported opcode):
`pc = 0x80000000` translates to physical offset 0, where working memory
holds the bytes `80 00 00 00`. -/
def unknownFetchState : CPU :=
  { CPU.init N64Memory.init with
      pc := 0x80000000,
      mem := { N64Memory.init with rdram := fun i => if i = 0 then 0x80 else 0 } }

/-- A state whose fetch yields the J instruction `0x08000000` (target 0). -/
def jumpFetchState : CPU :=
  { CPU.init N64Memory.init with
      pc := 0x80000000,
      mem := { N64Memory.init with rdram := fun i => if i = 0 then 0x08 else 0 } }

/-- A state with `registers[1] = 100` and `registers[2] = 200`. -/
def multuState : CPU :=
  { CPU.init N64Memory.init with
      gpr := fun i => if i = 1 then 100 else if i = 2 then 200 else 0 }

example : virtual_to_physical 0xA4000040 = 0x04000040 := by decide
example : virtual_to_physical 0x00001234 = 0x00001234 := by decide
example : N64Memory.init.read32 0x80000000 = 0 := by decide
example : ((CPU.init N64Memory.init).decode_execute 0x20010064).gpr 1 = 100 := by decide

/-
Claim C1 (corrected).  On fewer than 4 bytes the failure leaves everything
unchanged, but on an unrecognized first byte the source runs
`self.endian_mode = "Unknown"` before `return None`, so the byte-order tag
IS mutated.  The counterexample feeds `[0,0,0,0]` to a fresh memory whose
tag is "Z64 (Big-Endian)".
-/

/-- C1 counterexample: `loadImage` on `[0,0,0,0]` (4 bytes, unrecognized
first byte 0) fails as claimed, but the byte-order tag after the call
differs from the tag before, contradicting "leaves all state unchanged". -/
theorem c1_counterexample :
    (N64Memory.init.load_rom_data [0, 0, 0, 0]).1 = none ∧
    (N64Memory.init.load_rom_data [0, 0, 0, 0]).2.endian_mode ≠ N64Memory.init.endian_mode := by
  constructor
  · rfl
  · decide

/-- C1 (amended): an input of fewer than 4 bytes fails with no state
change at all; an input of at least 4 bytes whose first byte is none of
`0x80`, `0x37`, `0x40` fails and leaves the image buffer and working
memory unchanged, but sets the byte-order tag to "Unknown". -/
theorem c1_loadImage_failure (m : N64Memory) (raw : List Nat) :
    (raw.length < 4 → m.load_rom_data raw = (none, m)) ∧
    (4 ≤ raw.length → raw.getD 0 0 ≠ 0x80 → raw.getD 0 0 ≠ 0x37 → raw.getD 0 0 ≠ 0x40 →
      m.load_rom_data raw = (none, { m with endian_mode := "Unknown" })) := by
  constructor
  · intro h
    simp [N64Memory.load_rom_data, h]
  · intro hlen h80 h37 h40
    unfold N64Memory.load_rom_data
    rw [if_neg (by omega), if_neg h80, if_neg h37, if_neg h40]

/-- Witness for `c1_loadImage_failure` at concrete inputs. -/
theorem c1_loadImage_failure_witness :
    (([9] : List Nat).length < 4 ∧ N64Memory.init.load_rom_data [9] = (none, N64Memory.init)) ∧
    (4 ≤ ([9, 9, 9, 9] : List Nat).length ∧
      N64Memory.init.load_rom_data [9, 9, 9, 9] =
        (none, { N64Memory.init with endian_mode := "Unknown" })) :=
  ⟨⟨by decide, (c1_loadImage_failure N64Memory.init [9]).1 (by decide)⟩,
   ⟨by decide, (c1_loadImage_failure N64Memory.init [9, 9, 9, 9]).2 (by decide)
      (by decide) (by decide) (by decide)⟩⟩

/-- C2: address translation is a pure function of the address; it masks the
address to 32 bits, translates masked addresses in
`[0x80000000, 0xBFFFFFFF]` by `& 0x1FFFFFFF`, and passes every other
masked address through unchanged.  (It is a plain function of `addr`
alone, so it has no side effects on any state by construction.) -/
theorem c2_virtual_to_physical (addr : Nat) :
    (0x80000000 ≤ addr % 2 ^ 32 ∧ addr % 2 ^ 32 ≤ 0xBFFFFFFF →
      virtual_to_physical addr = (addr % 2 ^ 32) &&& 0x1FFFFFFF) ∧
    (¬(0x80000000 ≤ addr % 2 ^ 32 ∧ addr % 2 ^ 32 ≤ 0xBFFFFFFF) →
      virtual_to_physical addr = addr % 2 ^ 32) := by
  have hmask : (addr % 2 ^ 32) &&& 0x1FFFFFFF = addr % 2 ^ 32 % 2 ^ 29 := by
    have h := Nat.and_pow_two_sub_one_eq_mod (addr % 2 ^ 32) 29
    norm_num at h ⊢
    exact h
  constructor
  · intro h
    simp only [virtual_to_physical, if_pos h, hmask]
  · intro h
    simp only [virtual_to_physical, if_neg h]

/-- Witness for `c2_virtual_to_physical`: a kernel-segment address and an
identity-mapped address. -/
theorem c2_virtual_to_physical_witness :
    ((0x80000000 ≤ 0xA4000040 % 2 ^ 32 ∧ 0xA4000040 % 2 ^ 32 ≤ 0xBFFFFFFF) ∧
      virtual_to_physical 0xA4000040 = (0xA4000040 % 2 ^ 32) &&& 0x1FFFFFFF) ∧
    (¬(0x80000000 ≤ 0x1234 % 2 ^ 32 ∧ 0x1234 % 2 ^ 32 ≤ 0xBFFFFFFF) ∧
      virtual_to_physical 0x1234 = 0x1234 % 2 ^ 32) :=
  ⟨⟨by decide, (c2_virtual_to_physical 0xA4000040).1 (by decide)⟩,
   ⟨by decide, (c2_virtual_to_physical 0x1234).2 (by decide)⟩⟩

theorem drop_add_four {α : Type} (a b c d : α) (xs : List α) (n : Nat) :
    (a :: b :: c :: d :: xs).drop (n + 4) = xs.drop n := rfl

theorem swapChunks_length : ∀ l : List Nat, (swapChunks l).length = l.length
  | [] => rfl
  | [_] => rfl
  | [_, _] => rfl
  | [_, _, _] => rfl
  | _ :: _ :: _ :: _ :: rest => by
      simp [swapChunks, swapChunks_length rest]

theorem leToBe_length : ∀ l : List Nat, (leToBe l).length = l.length
  | [] => rfl
  | [_] => rfl
  | [_, _] => rfl
  | [_, _, _] => rfl
  | _ :: _ :: _ :: _ :: rest => by
      simp [leToBe, bePack, leToBe_length rest]

theorem swapChunks_short : ∀ l : List Nat, l.length < 4 → swapChunks l = l
  | [], _ => rfl
  | [_], _ => rfl
  | [_, _], _ => rfl
  | [_, _, _], _ => rfl
  | _ :: _ :: _ :: _ :: _, h => by simp at h; omega

theorem leToBe_short : ∀ l : List Nat, l.length < 4 → leToBe l = l
  | [], _ => rfl
  | [_], _ => rfl
  | [_, _], _ => rfl
  | [_, _, _], _ => rfl
  | _ :: _ :: _ :: _ :: _, h => by simp at h; omega

/-- Every complete aligned 4-byte group of `swapChunks l` is the reverse of
the corresponding input group. -/
theorem swapChunks_chunk : ∀ (k : Nat) (l : List Nat), 4 * k + 4 ≤ l.length →
    ((swapChunks l).drop (4 * k)).take 4 = ((l.drop (4 * k)).take 4).reverse := by
  intro k
  induction k with
  | zero =>
    intro l h
    match l, h with
    | b0 :: b1 :: b2 :: b3 :: rest, _ => simp [swapChunks]
  | succ k ih =>
    intro l h
    match l, h with
    | b0 :: b1 :: b2 :: b3 :: rest, h =>
      have h4 : 4 * (k + 1) = 4 * k + 4 := by ring
      rw [h4, swapChunks, drop_add_four, drop_add_four]
      exact ih rest (by simp at h; omega)

/-- A trailing partial group (anything past the last complete aligned
group) is left untouched by `swapChunks`. -/
theorem swapChunks_trailing : ∀ (k : Nat) (l : List Nat), 4 * k ≤ l.length →
    l.length < 4 * k + 4 → (swapChunks l).drop (4 * k) = l.drop (4 * k) := by
  intro k
  induction k with
  | zero =>
    intro l _ h
    rw [swapChunks_short l (by omega)]
  | succ k ih =>
    intro l hle hlt
    match l with
    | b0 :: b1 :: b2 :: b3 :: rest =>
      have h4 : 4 * (k + 1) = 4 * k + 4 := by ring
      rw [h4, swapChunks, drop_add_four, drop_add_four]
      exact ih rest (by simp at hle; omega) (by simp at hlt ⊢; omega)
    | [] => simp only [List.length_nil] at hle; omega
    | [_] => simp only [List.length_cons, List.length_nil] at hle; omega
    | [_, _] => simp only [List.length_cons, List.length_nil] at hle; omega
    | [_, _, _] => simp only [List.length_cons, List.length_nil] at hle; omega

/-- Every complete aligned 4-byte group of `leToBe l` is the big-endian
re-emission of the little-endian word read from the corresponding input
group. -/
theorem leToBe_chunk : ∀ (k : Nat) (l : List Nat), 4 * k + 4 ≤ l.length →
    ∃ b0 b1 b2 b3, (l.drop (4 * k)).take 4 = [b0, b1, b2, b3] ∧
      ((leToBe l).drop (4 * k)).take 4 = bePack (leWord b0 b1 b2 b3) := by
  intro k
  induction k with
  | zero =>
    intro l h
    match l, h with
    | b0 :: b1 :: b2 :: b3 :: rest, _ =>
      exact ⟨b0, b1, b2, b3, rfl, by simp [leToBe, bePack]⟩
  | succ k ih =>
    intro l h
    match l, h with
    | b0 :: b1 :: b2 :: b3 :: rest, h =>
      have h4 : 4 * (k + 1) = 4 * k + 4 := by ring
      rw [h4, leToBe]
      have hb : bePack (leWord b0 b1 b2 b3) ++ leToBe rest =
          leWord b0 b1 b2 b3 / 2 ^ 24 % 256 :: leWord b0 b1 b2 b3 / 2 ^ 16 % 256 ::
          leWord b0 b1 b2 b3 / 2 ^ 8 % 256 :: leWord b0 b1 b2 b3 % 256 :: leToBe rest := rfl
      rw [hb, drop_add_four, drop_add_four]
      exact ih rest (by simp at h; omega)

/-- A trailing partial group is left untouched by `leToBe`. -/
theorem leToBe_trailing : ∀ (k : Nat) (l : List Nat), 4 * k ≤ l.length →
    l.length < 4 * k + 4 → (leToBe l).drop (4 * k) = l.drop (4 * k) := by
  intro k
  induction k with
  | zero =>
    intro l _ h
    rw [leToBe_short l (by omega)]
  | succ k ih =>
    intro l hle hlt
    match l with
    | b0 :: b1 :: b2 :: b3 :: rest =>
      have h4 : 4 * (k + 1) = 4 * k + 4 := by ring
      have hb : leToBe (b0 :: b1 :: b2 :: b3 :: rest) =
          leWord b0 b1 b2 b3 / 2 ^ 24 % 256 :: leWord b0 b1 b2 b3 / 2 ^ 16 % 256 ::
          leWord b0 b1 b2 b3 / 2 ^ 8 % 256 :: leWord b0 b1 b2 b3 % 256 :: leToBe rest := rfl
      rw [h4, hb, drop_add_four, drop_add_four]
      exact ih rest (by simp at hle; omega) (by simp at hlt ⊢; omega)
    | [] => simp only [List.length_nil] at hle; omega
    | [_] => simp only [List.length_cons, List.length_nil] at hle; omega
    | [_, _] => simp only [List.length_cons, List.length_nil] at hle; omega
    | [_, _, _] => simp only [List.length_cons, List.length_nil] at hle; omega

/-- On byte-valued lists, re-reading a byte-reversed group as little-endian
and re-emitting it big-endian restores the original group: `leToBe` undoes
`swapChunks`. -/
theorem leToBe_swapChunks : ∀ l : List Nat, (∀ b ∈ l, b < 256) →
    leToBe (swapChunks l) = l
  | [], _ => rfl
  | [_], _ => rfl
  | [_, _], _ => rfl
  | [_, _, _], _ => rfl
  | b0 :: b1 :: b2 :: b3 :: rest, h => by
      have h0 : b0 < 256 := h b0 (by simp)
      have h1 : b1 < 256 := h b1 (by simp)
      have h2 : b2 < 256 := h b2 (by simp)
      have h3 : b3 < 256 := h b3 (by simp)
      have ih := leToBe_swapChunks rest (fun b hb => h b (by simp [hb]))
      rw [swapChunks, leToBe, ih]
      simp only [bePack, leWord, List.cons_append, List.nil_append, List.cons.injEq]
      norm_num
      omega

theorem writeBytes_lt (b : Nat → Nat) (data : List Nat) (i : Nat) (h : i < data.length) :
    writeBytes b data i = data.getD i 0 := by
  simp [writeBytes, h]

theorem writeBytes_ge (b : Nat → Nat) (data : List Nat) (i : Nat) (h : data.length ≤ i) :
    writeBytes b data i = b i := by
  simp [writeBytes, Nat.not_lt.2 h]

/-- C4: memory access is totally permissive.  `write32` into the image
window `[0x10000000, 0x14000000)` (of the 32-bit-masked address) changes
nothing; `write32` whose translated offset does not fit a 4-byte word in
working memory changes nothing; `read32` returns 0 when both the
image-window check (window membership plus image bounds) and the working
memory bounds check fail; an in-bounds `write32` stores exactly the four
big-endian bytes of the low 32 bits of the value and touches nothing
else.  (Both operations are total Lean functions, so neither can raise.) -/
theorem c4_memory_access (m : N64Memory) (addr val : Nat) :
    (0x10000000 ≤ addr % 2 ^ 32 ∧ addr % 2 ^ 32 < 0x14000000 → m.write32 addr val = m) ∧
    (¬(0x10000000 ≤ addr % 2 ^ 32 ∧ addr % 2 ^ 32 < 0x14000000) →
      ¬(virtual_to_physical addr + 3 < rdramSize) → m.write32 addr val = m) ∧
    (¬(0x10000000 ≤ addr % 2 ^ 32 ∧ addr % 2 ^ 32 < 0x14000000 ∧
        addr % 2 ^ 32 - 0x10000000 + 3 < romSize) →
      ¬(virtual_to_physical addr + 3 < rdramSize) → m.read32 addr = 0) ∧
    (¬(0x10000000 ≤ addr % 2 ^ 32 ∧ addr % 2 ^ 32 < 0x14000000) →
      virtual_to_physical addr + 3 < rdramSize →
      (m.write32 addr val).rom = m.rom ∧
      (m.write32 addr val).endian_mode = m.endian_mode ∧
      (m.write32 addr val).rdram (virtual_to_physical addr) = val % 2 ^ 32 / 2 ^ 24 % 256 ∧
      (m.write32 addr val).rdram (virtual_to_physical addr + 1) = val % 2 ^ 32 / 2 ^ 16 % 256 ∧
      (m.write32 addr val).rdram (virtual_to_physical addr + 2) = val % 2 ^ 32 / 2 ^ 8 % 256 ∧
      (m.write32 addr val).rdram (virtual_to_physical addr + 3) = val % 2 ^ 32 % 256 ∧
      ∀ i, i < virtual_to_physical addr ∨ virtual_to_physical addr + 3 < i →
        (m.write32 addr val).rdram i = m.rdram i) := by
  refine ⟨?_, ?_, ?_, ?_⟩
  · intro h
    simp only [N64Memory.write32, if_pos h]
  · intro hwin hbound
    simp only [N64Memory.write32, if_neg hwin, if_neg hbound]
  · intro hwin hbound
    simp only [N64Memory.read32, if_neg hwin, if_neg hbound]
  · intro hwin hbound
    simp only [N64Memory.write32, if_neg hwin, if_pos hbound]
    refine ⟨by trivial, by trivial, ?_, ?_, ?_, ?_, ?_⟩
    · simp
    · rw [if_neg (by omega)]
      simp
    · rw [if_neg (by omega), if_neg (by omega)]
      simp
    · rw [if_neg (by omega), if_neg (by omega), if_neg (by omega)]
      simp
    · intro i hi
      rw [if_neg (by omega), if_neg (by omega), if_neg (by omega), if_neg (by omega)]

/-- Witness for `c4_memory_access`: a discarded image-window write, a
discarded out-of-range write, a silent-zero out-of-range read, and an
in-bounds write landing at translated offset 0. -/
theorem c4_memory_access_witness :
    ((0x10000000 ≤ 0x10000000 % 2 ^ 32 ∧ 0x10000000 % 2 ^ 32 < 0x14000000) ∧
      N64Memory.init.write32 0x10000000 5 = N64Memory.init) ∧
    (¬(0x10000000 ≤ 0x20000000 % 2 ^ 32 ∧ 0x20000000 % 2 ^ 32 < 0x14000000) ∧
      ¬(virtual_to_physical 0x20000000 + 3 < rdramSize) ∧
      N64Memory.init.write32 0x20000000 5 = N64Memory.init ∧
      N64Memory.init.read32 0x20000000 = 0) ∧
    (¬(0x10000000 ≤ 0x80000000 % 2 ^ 32 ∧ 0x80000000 % 2 ^ 32 < 0x14000000) ∧
      virtual_to_physical 0x80000000 + 3 < rdramSize ∧
      (N64Memory.init.write32 0x80000000 0x11223344).rdram 0 =
        0x11223344 % 2 ^ 32 / 2 ^ 24 % 256) :=
  ⟨⟨by decide, (c4_memory_access N64Memory.init 0x10000000 5).1 (by decide)⟩,
   ⟨by decide, by decide,
    (c4_memory_access N64Memory.init 0x20000000 5).2.1 (by decide) (by decide),
    (c4_memory_access N64Memory.init 0x20000000 5).2.2.1 (by decide) (by decide)⟩,
   ⟨by decide, by decide, by
      have h := ((c4_memory_access N64Memory.init 0x80000000 0x11223344).2.2.2
        (by decide) (by decide)).2.2.1
      simpa using h⟩⟩

theorem load_rom_data_rom_high (m : N64Memory) (raw : List Nat) (i : Nat)
    (h : raw.length ≤ i) : (m.load_rom_data raw).2.rom i = m.rom i := by
  by_cases hl : raw.length < 4
  · simp [N64Memory.load_rom_data, hl]
  · by_cases h80 : raw.getD 0 0 = 0x80
    · rw [List.getD_eq_getElem?_getD] at h80
      simp [N64Memory.load_rom_data, hl, h80, writeBytes_ge _ _ _ h]
    · by_cases h37 : raw.getD 0 0 = 0x37
      · rw [List.getD_eq_getElem?_getD] at h80 h37
        have hg : (swapChunks raw).length ≤ i := by rw [swapChunks_length]; exact h
        simp [N64Memory.load_rom_data, hl, h80, h37, writeBytes_ge _ _ _ hg]
      · by_cases h40 : raw.getD 0 0 = 0x40
        · rw [List.getD_eq_getElem?_getD] at h80 h37 h40
          have hg : (leToBe raw).length ≤ i := by rw [leToBe_length]; exact h
          simp [N64Memory.load_rom_data, hl, h80, h37, h40, writeBytes_ge _ _ _ hg]
        · rw [List.getD_eq_getElem?_getD] at h80 h37 h40
          simp [N64Memory.load_rom_data, hl, h80, h37, h40]

theorem load_rom_data_rdram (m : N64Memory) (raw : List Nat) :
    (m.load_rom_data raw).2.rdram = m.rdram := by
  by_cases hl : raw.length < 4
  · simp [N64Memory.load_rom_data, hl]
  · by_cases h80 : raw.getD 0 0 = 0x80
    · rw [List.getD_eq_getElem?_getD] at h80
      simp [N64Memory.load_rom_data, hl, h80]
    · by_cases h37 : raw.getD 0 0 = 0x37
      · rw [List.getD_eq_getElem?_getD] at h80 h37
        simp [N64Memory.load_rom_data, hl, h80, h37]
      · by_cases h40 : raw.getD 0 0 = 0x40
        · rw [List.getD_eq_getElem?_getD] at h80 h37 h40
          simp [N64Memory.load_rom_data, hl, h80, h37, h40]
        · rw [List.getD_eq_getElem?_getD] at h80 h37 h40
          simp [N64Memory.load_rom_data, hl, h80, h37, h40]

/-- C3: `loadImage` on a valid input normalizes by first byte (`0x80`:
verbatim; `0x37`: every complete aligned 4-byte group reversed; `0x40`:
every complete aligned group reinterpreted as a little-endian 32-bit word
and re-emitted big-endian; a trailing partial group copied untransformed),
writes the normalized bytes to the start of the image buffer (`writeBytes`
overwrites exactly the first `data.length` bytes), leaves image bytes
beyond the input length unchanged, records the byte-order tag, and
returns the input length. -/
theorem c3_loadImage_normalize (m : N64Memory) (raw : List Nat) (hlen : 4 ≤ raw.length) :
    (raw.getD 0 0 = 0x80 →
      m.load_rom_data raw = (some raw.length,
        { m with endian_mode := "Z64 (Big-Endian)", rom := writeBytes m.rom raw })) ∧
    (raw.getD 0 0 = 0x37 →
      m.load_rom_data raw = (some raw.length,
        { m with endian_mode := "V64 (Byte-swapped)",
                 rom := writeBytes m.rom (swapChunks raw) }) ∧
      (∀ k, 4 * k + 4 ≤ raw.length →
        ((swapChunks raw).drop (4 * k)).take 4 = ((raw.drop (4 * k)).take 4).reverse) ∧
      (∀ k, 4 * k ≤ raw.length → raw.length < 4 * k + 4 →
        (swapChunks raw).drop (4 * k) = raw.drop (4 * k))) ∧
    (raw.getD 0 0 = 0x40 →
      m.load_rom_data raw = (some raw.length,
        { m with endian_mode := "N64 (Little-Endian)",
                 rom := writeBytes m.rom (leToBe raw) }) ∧
      (∀ k, 4 * k + 4 ≤ raw.length → ∃ b0 b1 b2 b3,
        (raw.drop (4 * k)).take 4 = [b0, b1, b2, b3] ∧
        ((leToBe raw).drop (4 * k)).take 4 = bePack (leWord b0 b1 b2 b3)) ∧
      (∀ k, 4 * k ≤ raw.length → raw.length < 4 * k + 4 →
        (leToBe raw).drop (4 * k) = raw.drop (4 * k))) ∧
    (∀ i, raw.length ≤ i → (m.load_rom_data raw).2.rom i = m.rom i) ∧
    (m.load_rom_data raw).2.rdram = m.rdram := by
  have h4 : ¬ raw.length < 4 := by omega
  refine ⟨?_, ?_, ?_, ?_, load_rom_data_rdram m raw⟩
  · intro h80
    rw [List.getD_eq_getElem?_getD] at h80
    simp [N64Memory.load_rom_data, h4, h80]
  · intro h37
    rw [List.getD_eq_getElem?_getD] at h37
    refine ⟨?_, fun k hk => swapChunks_chunk k raw hk,
      fun k h1 h2 => swapChunks_trailing k raw h1 h2⟩
    have hne : raw[0]?.getD 0 ≠ 0x80 := by rw [h37]; decide
    simp [N64Memory.load_rom_data, h4, h37, hne, swapChunks_length]
  · intro h40
    rw [List.getD_eq_getElem?_getD] at h40
    refine ⟨?_, fun k hk => leToBe_chunk k raw hk,
      fun k h1 h2 => leToBe_trailing k raw h1 h2⟩
    have hne : raw[0]?.getD 0 ≠ 0x80 := by rw [h40]; decide
    have hne37 : raw[0]?.getD 0 ≠ 0x37 := by rw [h40]; decide
    simp [N64Memory.load_rom_data, h4, h40, hne, hne37, leToBe_length]
  · intro i hi
    exact load_rom_data_rom_high m raw i hi

/-- Witness for `c3_loadImage_normalize`: a concrete byte-swapped (`0x37`)
image of length 5 (one complete group plus one trailing byte). -/
theorem c3_loadImage_normalize_witness :
    4 ≤ ([0x37, 1, 2, 3, 9] : List Nat).length ∧
    ([0x37, 1, 2, 3, 9] : List Nat).getD 0 0 = 0x37 ∧
    N64Memory.init.load_rom_data [0x37, 1, 2, 3, 9] =
      (some ([0x37, 1, 2, 3, 9] : List Nat).length,
        { N64Memory.init with endian_mode := "V64 (Byte-swapped)",
                              rom := writeBytes N64Memory.init.rom
                                (swapChunks [0x37, 1, 2, 3, 9]) }) :=
  ⟨by decide, by decide,
    ((c3_loadImage_normalize N64Memory.init [0x37, 1, 2, 3, 9] (by decide)).2.1
      (by decide)).1⟩

/-- C9: round-trip of byte-order normalization.  For a canonical big-endian
image `be` (first byte `0x80`, length a multiple of 4) and its
little-endian re-encoding (each 32-bit word's bytes reversed, i.e.
`swapChunks be`, whose first byte is `0x40`), `loadImage` succeeds on both
with the same returned size and produces identical image buffer
contents. -/
theorem c9_roundTrip (m : N64Memory) (be : List Nat)
    (hmod : be.length % 4 = 0) (hlen : 4 ≤ be.length)
    (hbytes : ∀ b ∈ be, b < 256) (hfb : be.getD 0 0 = 0x80)
    (hle : (swapChunks be).getD 0 0 = 0x40) :
    m.load_rom_data be = (some be.length,
      { m with endian_mode := "Z64 (Big-Endian)", rom := writeBytes m.rom be }) ∧
    m.load_rom_data (swapChunks be) = (some be.length,
      { m with endian_mode := "N64 (Little-Endian)", rom := writeBytes m.rom be }) ∧
    (m.load_rom_data be).2.rom = (m.load_rom_data (swapChunks be)).2.rom := by
  have h4 : ¬ be.length < 4 := by omega
  have hswlen : (swapChunks be).length = be.length := swapChunks_length be
  have h4' : ¬ (swapChunks be).length < 4 := by omega
  have hne80 : (swapChunks be).getD 0 0 ≠ 0x80 := by rw [hle]; decide
  have hne37 : (swapChunks be).getD 0 0 ≠ 0x37 := by rw [hle]; decide
  have hundo : leToBe (swapChunks be) = be := leToBe_swapChunks be hbytes
  rw [List.getD_eq_getElem?_getD] at hfb hle hne80 hne37
  have h1 : m.load_rom_data be = (some be.length,
      { m with endian_mode := "Z64 (Big-Endian)", rom := writeBytes m.rom be }) := by
    simp [N64Memory.load_rom_data, h4, hfb]
  have h2 : m.load_rom_data (swapChunks be) = (some be.length,
      { m with endian_mode := "N64 (Little-Endian)", rom := writeBytes m.rom be }) := by
    simp [N64Memory.load_rom_data, h4', hne80, hne37, hle, hundo, hswlen]
    omega
  exact ⟨h1, h2, by rw [h1, h2]⟩

/-- Witness for `c9_roundTrip`: the 4-byte image `[0x80, 0, 0, 0x40]` and
its reversal `[0x40, 0, 0, 0x80]`. -/
theorem c9_roundTrip_witness :
    ([0x80, 0, 0, 0x40] : List Nat).length % 4 = 0 ∧
    4 ≤ ([0x80, 0, 0, 0x40] : List Nat).length ∧
    (∀ b ∈ ([0x80, 0, 0, 0x40] : List Nat), b < 256) ∧
    ([0x80, 0, 0, 0x40] : List Nat).getD 0 0 = 0x80 ∧
    (swapChunks [0x80, 0, 0, 0x40]).getD 0 0 = 0x40 ∧
    (N64Memory.init.load_rom_data [0x80, 0, 0, 0x40]).2.rom =
      (N64Memory.init.load_rom_data (swapChunks [0x80, 0, 0, 0x40])).2.rom :=
  ⟨by decide, by decide, by decide, by decide, by decide,
    (c9_roundTrip N64Memory.init [0x80, 0, 0, 0x40] (by decide) (by decide)
      (by decide) (by decide) (by decide)).2.2⟩

theorem specialDispatch_cycles (c : CPU) (rs rt rd sh fn : Nat) :
    (c.specialDispatch rs rt rd sh fn).cycles = c.cycles := by
  unfold CPU.specialDispatch
  repeat' split
  all_goals rfl

theorem decode_execute_cycles (c : CPU) (ins : Nat) :
    (c.decode_execute ins).cycles = c.cycles + 1 := by
  unfold CPU.decode_execute
  dsimp only
  simp only [apply_ite CPU.cycles, specialDispatch_cycles, ite_self]

theorem decode_execute_gpr0 (c : CPU) (ins : Nat) :
    (c.decode_execute ins).gpr 0 = 0 := by
  unfold CPU.decode_execute
  dsimp only
  rw [Function.update_same]

theorem step_cycles (c : CPU) : c.step.cycles = c.cycles + 1 := by
  unfold CPU.step
  dsimp only
  rw [decode_execute_cycles]

theorem step_gpr0 (c : CPU) : c.step.gpr 0 = 0 := by
  unfold CPU.step
  dsimp only
  rw [decode_execute_gpr0]

theorem specialDispatch_unknown (c : CPU) (rs rt rd sh fn : Nat) (h : fn ∉ handledFns) :
    c.specialDispatch rs rt rd sh fn = c := by
  have f00 : fn ≠ 0x00 := fun he => h (by rw [he]; decide)
  have f02 : fn ≠ 0x02 := fun he => h (by rw [he]; decide)
  have f08 : fn ≠ 0x08 := fun he => h (by rw [he]; decide)
  have f09 : fn ≠ 0x09 := fun he => h (by rw [he]; decide)
  have f12 : fn ≠ 0x12 := fun he => h (by rw [he]; decide)
  have f18 : fn ≠ 0x18 := fun he => h (by rw [he]; decide)
  have f20 : ¬(fn = 0x20 ∨ fn = 0x21) := by
    rintro (he | he) <;> exact h (by rw [he]; decide)
  have f22 : ¬(fn = 0x22 ∨ fn = 0x23) := by
    rintro (he | he) <;> exact h (by rw [he]; decide)
  have f24 : fn ≠ 0x24 := fun he => h (by rw [he]; decide)
  have f25 : fn ≠ 0x25 := fun he => h (by rw [he]; decide)
  unfold CPU.specialDispatch
  rw [if_neg f00, if_neg f02, if_neg f08, if_neg f09, if_neg f12, if_neg f18,
    if_neg f20, if_neg f22, if_neg f24, if_neg f25]

theorem decode_execute_unknown (c : CPU) (ins : Nat) (h : unknownInstr ins) :
    c.decode_execute ins =
      { c with gpr := Function.update c.gpr 0 0, cycles := c.cycles + 1 } := by
  rcases h with h | ⟨h0, hfn⟩
  · have g00 : ins / 2 ^ 26 % 64 ≠ 0x00 := fun he => h (by rw [he]; decide)
    have g02 : ins / 2 ^ 26 % 64 ≠ 0x02 := fun he => h (by rw [he]; decide)
    have g03 : ins / 2 ^ 26 % 64 ≠ 0x03 := fun he => h (by rw [he]; decide)
    have g04 : ¬(ins / 2 ^ 26 % 64 = 0x04 ∧
        Function.update c.gpr 0 0 (ins / 2 ^ 21 % 32) =
          Function.update c.gpr 0 0 (ins / 2 ^ 16 % 32)) :=
      fun hc => h (by rw [hc.1]; decide)
    have g05 : ¬(ins / 2 ^ 26 % 64 = 0x05 ∧
        ¬Function.update c.gpr 0 0 (ins / 2 ^ 21 % 32) =
          Function.update c.gpr 0 0 (ins / 2 ^ 16 % 32)) :=
      fun hc => h (by rw [hc.1]; decide)
    have g89 : ¬(ins / 2 ^ 26 % 64 = 0x08 ∨ ins / 2 ^ 26 % 64 = 0x09) := by
      rintro (he | he) <;> exact h (by rw [he]; decide)
    have g0C : ins / 2 ^ 26 % 64 ≠ 0x0C := fun he => h (by rw [he]; decide)
    have g0D : ins / 2 ^ 26 % 64 ≠ 0x0D := fun he => h (by rw [he]; decide)
    have g0F : ins / 2 ^ 26 % 64 ≠ 0x0F := fun he => h (by rw [he]; decide)
    have g23 : ins / 2 ^ 26 % 64 ≠ 0x23 := fun he => h (by rw [he]; decide)
    have g2B : ins / 2 ^ 26 % 64 ≠ 0x2B := fun he => h (by rw [he]; decide)
    unfold CPU.decode_execute
    dsimp only
    rw [if_neg g00, if_neg g02, if_neg g03, if_neg g04, if_neg g05, if_neg g89,
      if_neg g0C, if_neg g0D, if_neg g0F, if_neg g23, if_neg g2B, Function.update_idem]
  · unfold CPU.decode_execute
    dsimp only
    rw [if_pos h0, specialDispatch_unknown _ _ _ _ _ _ hfn, Function.update_idem]

/-- C7: register 0 is pinned: after `decode_execute` of any instruction
word (including words that encode a write to register 0) from any state,
and after any `step()`, register 0 reads 0. -/
theorem c7_register_zero_pinned :
    (∀ (c : CPU) (ins : Nat), (c.decode_execute ins).gpr 0 = 0) ∧
    (∀ c : CPU, c.step.gpr 0 = 0) :=
  ⟨decode_execute_gpr0, step_gpr0⟩

/-- C8: a `step()` fetching an unrecognized instruction word raises no
error and changes nothing except the register-0 re-pin, the normal
pc/nextPc advance, and the cycle increment; moreover every `step()`,
recognized opcode or not, increments `cycles` by exactly 1 (so `cycles`
never decreases across steps). -/
theorem c8_unknown_is_noop :
    (∀ c : CPU, unknownInstr c.fetch →
      c.step = { c with gpr := Function.update c.gpr 0 0, pc := c.next_pc,
                        next_pc := c.next_pc + 4, cycles := c.cycles + 1 }) ∧
    (∀ c : CPU, c.step.cycles = c.cycles + 1) := by
  constructor
  · intro c h
    unfold CPU.step
    dsimp only
    rw [decode_execute_unknown c c.fetch h]
  · exact step_cycles

/-- Witness for `c8_unknown_is_noop`: a state whose fetch yields
`0x80000000` (primary opcode `0x20`, unsupported). -/
theorem c8_unknown_is_noop_witness :
    unknownInstr unknownFetchState.fetch ∧
    unknownFetchState.step =
      { unknownFetchState with
          gpr := Function.update unknownFetchState.gpr 0 0,
          pc := unknownFetchState.next_pc,
          next_pc := unknownFetchState.next_pc + 4,
          cycles := unknownFetchState.cycles + 1 } :=
  ⟨by decide, c8_unknown_is_noop.1 unknownFetchState (by decide)⟩

/-- C5: after every `step()`, `pc` equals the `nextPc` left by the execute
phase and `nextPc` is 4 past it; a J instruction with 26-bit target field
`T` fetched while `pc = U * 2^28 + r` (`r < 2^28`, `U < 16`, so `U` is
the top 4 bits of the 32-bit `pc`) makes the step end with
`pc = (U << 28) | (T << 2) = U * 2^28 + T * 4`, and the immediately
following `step()`'s fetch reads from exactly that address — no
delay-slot instruction is executed. -/
theorem c5_step_advance_and_jump :
    (∀ c : CPU, c.step.pc = (c.decode_execute c.fetch).next_pc ∧
      c.step.next_pc = c.step.pc + 4) ∧
    (∀ (c : CPU) (U r T : Nat), c.pc = U * 2 ^ 28 + r → r < 2 ^ 28 → U < 16 →
      T < 2 ^ 26 → c.fetch = 0x08000000 + T →
      c.step.pc = U * 2 ^ 28 + T * 4 ∧ c.step.next_pc = U * 2 ^ 28 + T * 4 + 4 ∧
      c.step.fetch = c.step.mem.read32 (U * 2 ^ 28 + T * 4)) := by
  constructor
  · exact fun c => ⟨rfl, rfl⟩
  · intro c U r T hpc hr hU hT hfetch
    have h26 : (2 : Nat) ^ 26 = 67108864 := by norm_num
    have h28 : (2 : Nat) ^ 28 = 268435456 := by norm_num
    rw [h26] at hT
    have hop0 : (0x08000000 + T) / 2 ^ 26 % 64 ≠ 0 := by rw [h26]; omega
    have hop2 : (0x08000000 + T) / 2 ^ 26 % 64 = 2 := by rw [h26]; omega
    have htgt : (0x08000000 + T) % 2 ^ 26 = T := by rw [h26]; omega
    have hmask : c.pc / 2 ^ 28 % 16 = U := by rw [hpc, h28]; rw [h28] at hr; omega
    have hd : c.decode_execute (0x08000000 + T) =
        { c with gpr := Function.update c.gpr 0 0,
                 next_pc := U * 2 ^ 28 + T * 4, cycles := c.cycles + 1 } := by
      unfold CPU.decode_execute
      dsimp only
      rw [if_neg hop0, if_pos hop2, htgt, hmask, Function.update_idem]
    unfold CPU.step CPU.fetch
    dsimp only
    rw [show c.mem.read32 c.pc = 0x08000000 + T from hfetch, hd]
    exact ⟨rfl, rfl, rfl⟩

/-- Witness for `c5_step_advance_and_jump`: a state at `pc = 0x80000000`
(`U = 8`, `r = 0`) fetching the J word `0x08000000` (`T = 0`). -/
theorem c5_step_advance_and_jump_witness :
    jumpFetchState.pc = 8 * 2 ^ 28 + 0 ∧ (0 : Nat) < 2 ^ 28 ∧ (8 : Nat) < 16 ∧
    (0 : Nat) < 2 ^ 26 ∧ jumpFetchState.fetch = 0x08000000 + 0 ∧
    jumpFetchState.step.pc = 8 * 2 ^ 28 + 0 * 4 :=
  ⟨by decide, by decide, by decide, by decide, by decide,
    (c5_step_advance_and_jump.2 jumpFetchState 8 0 0 (by decide) (by decide) (by decide)
      (by decide) (by decide)).1⟩

/-- C6: the CPU self-test arithmetic scenarios.  From `reset()`:
ADDIU r1, r0, 100 gives `registers[1] = 100`; then ORI r2, r0, 0xFF00
gives `registers[2] = 0xFF00`; then ADD r3, r1, r2 gives
`registers[3] = 100 + 0xFF00`; then SUB r4, r2, r1 gives
`registers[4] = 0xFF00 - 100`.  From any state with `registers[1] = 100`
and `registers[2] = 200`, MULTU r1, r2 then MFLO r3 gives
`registers[3] = 20000`. -/
theorem c6_cpu_test_scenarios :
    (let c0 := (CPU.init N64Memory.init).reset
     let c1 := c0.decode_execute 0x20010064
     let c2 := c1.decode_execute 0x3402FF00
     let c3 := c2.decode_execute 0x00221820
     let c4 := c3.decode_execute 0x00412022
     c1.gpr 1 = 100 ∧ c2.gpr 2 = 0xFF00 ∧ c3.gpr 3 = 100 + 0xFF00 ∧
       c4.gpr 4 = 0xFF00 - 100) ∧
    (∀ c : CPU, c.gpr 1 = 100 → c.gpr 2 = 200 →
      ((c.decode_execute 0x00220018).decode_execute 0x00001812).gpr 3 = 20000) := by
  constructor
  · exact ⟨by decide, by decide, by decide, by decide⟩
  · intro c h1 h2
    have hd1 : c.decode_execute 0x00220018 =
        { c with gpr := Function.update c.gpr 0 0, lo := 20000, hi := 0,
                 cycles := c.cycles + 1 } := by
      unfold CPU.decode_execute CPU.specialDispatch
      norm_num [Function.update_apply, h1, h2]
    rw [hd1]
    unfold CPU.decode_execute CPU.specialDispatch
    norm_num [Function.update_apply]

/-- Witness for `c6_cpu_test_scenarios`: the MULTU/MFLO scenario run from
`multuState`, which has `registers[1] = 100` and `registers[2] = 200`. -/
theorem c6_cpu_test_scenarios_witness :
    multuState.gpr 1 = 100 ∧ multuState.gpr 2 = 200 ∧
    ((multuState.decode_execute 0x00220018).decode_execute 0x00001812).gpr 3 = 20000 :=
  ⟨by decide, by decide, c6_cpu_test_scenarios.2 multuState (by decide) (by decide)⟩


theorem ite_lt {P : Prop} [Decidable P] {a b B : Nat} (ha : a < B) (hb : b < B) :
    (if P then a else b) < B := by
  split
  · exact ha
  · exact hb

theorem beWord_lt (b : Nat → Nat) (p : Nat) (hb : ∀ i, b i < 256) :
    beWord b p < 2 ^ 32 := by
  have h0 := hb p
  have h1 := hb (p + 1)
  have h2 := hb (p + 2)
  have h3 := hb (p + 3)
  unfold beWord
  norm_num
  omega

theorem read32_lt (m : N64Memory) (addr : Nat) (hrd : ∀ i, m.rdram i < 256)
    (hro : ∀ i, m.rom i < 256) : m.read32 addr < 2 ^ 32 := by
  unfold N64Memory.read32
  dsimp only
  split
  · exact beWord_lt _ _ hro
  · split
    · exact beWord_lt _ _ hrd
    · norm_num

theorem specialDispatch_gpr_lt (c : CPU) (rs rt rd sh fn : Nat)
    (hg : ∀ j, c.gpr j < 2 ^ 64) (hlo : c.lo < 2 ^ 64) (hpc : c.pc + 8 < 2 ^ 64) :
    ∀ i, (c.specialDispatch rs rt rd sh fn).gpr i < 2 ^ 64 := by
  intro i
  unfold CPU.specialDispatch
  simp only [apply_ite (fun s : CPU => s.gpr i)]
  repeat'
    first
      | apply ite_lt
      | rw [Function.update_apply]
  all_goals
    first
      | exact Nat.mod_lt _ (by norm_num)
      | exact hg i
      | omega
      | exact lt_of_le_of_lt Nat.and_le_left (hg rs)
      | exact Nat.or_lt_two_pow (hg rs) (hg rt)

theorem decode_execute_gpr_lt (c : CPU) (ins : Nat)
    (hg : ∀ j, c.gpr j < 2 ^ 64) (hlo : c.lo < 2 ^ 64)
    (hrd : ∀ j, c.mem.rdram j < 256) (hro : ∀ j, c.mem.rom j < 256)
    (hpc : c.pc + 8 < 2 ^ 64) :
    ∀ i, (c.decode_execute ins).gpr i < 2 ^ 64 := by
  intro i
  have hg0 : ∀ j, Function.update c.gpr 0 0 j < 2 ^ 64 := by
    intro j
    rw [Function.update_apply]
    apply ite_lt
    · norm_num
    · exact hg j
  have hsp : ∀ k, ({ c with gpr := Function.update c.gpr 0 0 }.specialDispatch
      (ins / 2 ^ 21 % 32) (ins / 2 ^ 16 % 32) (ins / 2 ^ 11 % 32) (ins / 2 ^ 6 % 32)
      (ins % 64)).gpr k < 2 ^ 64 :=
    specialDispatch_gpr_lt _ _ _ _ _ _ hg0 hlo hpc
  have himm : ins % 2 ^ 16 < 2 ^ 64 :=
    lt_trans (Nat.mod_lt _ (by norm_num)) (by norm_num)
  have hg0i : ∀ j, (if j = 0 then 0 else c.gpr j) < 2 ^ 64 := by
    intro j
    apply ite_lt
    · norm_num
    · exact hg j
  unfold CPU.decode_execute
  dsimp only
  rw [Function.update_apply]
  apply ite_lt
  · norm_num
  · simp only [apply_ite (fun s : CPU => s.gpr i)]
    repeat'
      first
        | apply ite_lt
        | rw [Function.update_apply]
    all_goals
      first
        | (refine lt_of_le_of_lt Nat.and_le_left ?_
           split
           · norm_num
           · exact lt_of_lt_of_le (hg _) (by norm_num))
        | (refine lt_of_lt_of_le (@Nat.or_lt_two_pow _ _ 64 ?_ ?_) (by norm_num)
           · split
             · norm_num
             · exact hg _
           · exact lt_trans (Nat.mod_lt _ (by norm_num)) (by norm_num))
        | exact hsp i
        | exact Nat.mod_lt _ (by norm_num)
        | exact hg0 i
        | exact hg i
        | exact hpc
        | exact hlo
        | exact lt_trans (beWord_lt _ _ hro) (by norm_num)
        | exact lt_trans (beWord_lt _ _ hrd) (by norm_num)
        | norm_num

theorem step_gpr_lt (c : CPU)
    (hg : ∀ j, c.gpr j < 2 ^ 64) (hlo : c.lo < 2 ^ 64)
    (hrd : ∀ j, c.mem.rdram j < 256) (hro : ∀ j, c.mem.rom j < 256)
    (hpc : c.pc + 8 < 2 ^ 64) :
    ∀ i, c.step.gpr i < 2 ^ 64 :=
  decode_execute_gpr_lt c c.fetch hg hlo hrd hro hpc

theorem update_zero_collapse (g : Nat → Nat) (h : g 0 = 0) :
    Function.update g 0 0 = g := by
  funext j
  by_cases hj : j = 0
  · rw [hj, Function.update_same, h]
  · rw [Function.update_noteq hj]

theorem loadedMem_rdram (i : Nat) : loadedMem.rdram i = 0 := rfl


theorem step_nop (c : CPU) (hrdram : ∀ i, c.mem.rdram i = 0) (hg0 : c.gpr 0 = 0)
    (hwin : ¬(0x10000000 ≤ c.pc % 2 ^ 32 ∧ c.pc % 2 ^ 32 < 0x14000000)) :
    c.step = { c with pc := c.next_pc, next_pc := c.next_pc + 4,
                      cycles := c.cycles + 1 } := by
  have hfetch : c.fetch = 0 := by
    unfold CPU.fetch N64Memory.read32
    dsimp only
    rw [if_neg (fun hc => hwin ⟨hc.1, hc.2.1⟩)]
    split
    · simp [beWord, hrdram]
    · rfl
  have hgeq : Function.update c.gpr 0 0 = c.gpr := update_zero_collapse c.gpr hg0
  unfold CPU.step
  dsimp only
  rw [hfetch]
  have hd : c.decode_execute 0 = { c with cycles := c.cycles + 1 } := by
    unfold CPU.decode_execute CPU.specialDispatch
    norm_num [hgeq, hg0]
  rw [hd]

theorem step_unknown_gpr0 (c : CPU) (h : unknownInstr c.fetch) (hg0 : c.gpr 0 = 0) :
    c.step = { c with pc := c.next_pc, next_pc := c.next_pc + 4,
                      cycles := c.cycles + 1 } := by
  unfold CPU.step
  dsimp only
  rw [decode_execute_unknown c c.fetch h, update_zero_collapse c.gpr hg0]

theorem step_jal2 (c : CPU) (hfetch : c.fetch = 0x0C000002) (hg0 : c.gpr 0 = 0) :
    c.step = { c with gpr := Function.update c.gpr 31 (c.pc + 8),
                      pc := c.pc / 2 ^ 28 % 16 * 2 ^ 28 + 8,
                      next_pc := c.pc / 2 ^ 28 % 16 * 2 ^ 28 + 8 + 4,
                      cycles := c.cycles + 1 } := by
  have hgeq : Function.update c.gpr 0 0 = c.gpr := update_zero_collapse c.gpr hg0
  have hcol : Function.update (Function.update c.gpr 31 (c.pc + 8)) 0 0
      = Function.update c.gpr 31 (c.pc + 8) := by
    apply update_zero_collapse
    rw [Function.update_noteq (by decide), hg0]
  unfold CPU.step
  dsimp only
  rw [hfetch]
  have hd : c.decode_execute 0x0C000002 =
      { c with gpr := Function.update c.gpr 31 (c.pc + 8),
               next_pc := c.pc / 2 ^ 28 % 16 * 2 ^ 28 + 8,
               cycles := c.cycles + 1 } := by
    unfold CPU.decode_execute
    norm_num [hgeq, hcol]
  rw [hd]

theorem step_beq_back (c : CPU) (hfetch : c.fetch = 0x10008000) (hg0 : c.gpr 0 = 0) :
    c.step = { c with pc := c.pc + 4 + 73786976294838075392,
                      next_pc := c.pc + 4 + 73786976294838075392 + 4,
                      cycles := c.cycles + 1 } := by
  have hgeq : Function.update c.gpr 0 0 = c.gpr := update_zero_collapse c.gpr hg0
  unfold CPU.step
  dsimp only
  rw [hfetch]
  have hd : c.decode_execute 0x10008000 =
      { c with pc := c.pc, next_pc := c.pc + 4 + 73786976294838075392,
               cycles := c.cycles + 1 } := by
    unfold CPU.decode_execute
    norm_num [hgeq]
  rw [hd]

theorem step_nop_run (n : Nat) : ∀ c : CPU, (∀ i, c.mem.rdram i = 0) → c.gpr 0 = 0 →
    c.next_pc = c.pc + 4 →
    (∀ j, j < n → ¬(0x10000000 ≤ (c.pc + 4 * j) % 2 ^ 32 ∧
      (c.pc + 4 * j) % 2 ^ 32 < 0x14000000)) →
    CPU.step^[n] c = { c with pc := c.pc + 4 * n, next_pc := c.pc + 4 * n + 4,
                              cycles := c.cycles + n } := by
  induction n with
  | zero =>
    intro c _ _ hnext _
    simp only [Function.iterate_zero, id_eq]
    have h1 : c.pc + 4 * 0 = c.pc := by omega
    have h2 : c.cycles + 0 = c.cycles := rfl
    rw [h1, h2, ← hnext]
  | succ n ih =>
    intro c hrdram hg0 hnext hwin
    rw [Function.iterate_succ_apply]
    have hw0 : ¬(0x10000000 ≤ c.pc % 2 ^ 32 ∧ c.pc % 2 ^ 32 < 0x14000000) := by
      have h := hwin 0 (by omega)
      have h0 : c.pc + 4 * 0 = c.pc := by omega
      rw [h0] at h
      exact h
    rw [step_nop c hrdram hg0 hw0]
    have hwin2 : ∀ j, j < n → ¬(0x10000000 ≤ (c.next_pc + 4 * j) % 2 ^ 32 ∧
        (c.next_pc + 4 * j) % 2 ^ 32 < 0x14000000) := by
      intro j hj
      have h := hwin (j + 1) (by omega)
      have harith : c.pc + 4 * (j + 1) = c.next_pc + 4 * j := by rw [hnext]; ring
      rw [harith] at h
      exact h
    rw [ih { c with pc := c.next_pc, next_pc := c.next_pc + 4, cycles := c.cycles + 1 }
      hrdram hg0 rfl hwin2]
    ext
    all_goals dsimp only
    all_goals first
      | rfl
      | omega

theorem reachable_iterate {c : CPU} (h : Reachable c) (n : Nat) :
    Reachable (CPU.step^[n] c) := by
  induction n with
  | zero => simpa using h
  | succ n ih =>
    rw [Function.iterate_succ_apply']
    exact Reachable.step ih

/-- C10 counterexample: the 64-bit register-width claim is false.  Load
`rawRom`, run 452984816 no-op steps until `pc` reaches `0x110000000`
(whose 32-bit masking `0x10000000` enters the image window), execute the
loaded JAL (link value `0x11000000C`, still in range), land at
`0x10000008`, execute the taken BEQ whose sign-extended-as-unsigned
offset pushes `pc` past `2^66`, run 32765 more no-op steps to re-enter
the image window, and execute the JAL again: its link write stores the
unmasked `pc + 8 = 73786976295106641932 ≥ 2^64` into register 31.  The
final state is reachable and its register 31 does not lie in
`[0, 2^64)`. -/
theorem c10_counterexample :
    ∃ c : CPU, Reachable c ∧ 2 ^ 64 ≤ c.gpr 31 := by
  have h32 : (2 : Nat) ^ 32 = 4294967296 := by norm_num
  have hreachA : Reachable { CPU.init N64Memory.init with mem := loadedMem } :=
    @Reachable.load (CPU.init N64Memory.init) rawRom Reachable.boot (by decide)
  have hw1 : ∀ j, j < 452984816 →
      ¬(0x10000000 ≤ (({ CPU.init N64Memory.init with mem := loadedMem } : CPU).pc + 4 * j)
          % 2 ^ 32 ∧
        (({ CPU.init N64Memory.init with mem := loadedMem } : CPU).pc + 4 * j)
          % 2 ^ 32 < 0x14000000) := by
    intro j hj
    show ¬(0x10000000 ≤ (2751463488 + 4 * j) % 2 ^ 32 ∧
      (2751463488 + 4 * j) % 2 ^ 32 < 0x14000000)
    rw [h32]
    omega
  have hsB :
      CPU.step^[452984816] { CPU.init N64Memory.init with mem := loadedMem } =
        { mem := loadedMem, gpr := fun _ => 0, pc := 4563402752, next_pc := 4563402756,
          hi := 0, lo := 0, cycles := 452984816, running := false } := by
    rw [step_nop_run 452984816 { CPU.init N64Memory.init with mem := loadedMem }
      loadedMem_rdram rfl rfl hw1]
    ext
    all_goals rfl
  have hsC :
      CPU.step
        { mem := loadedMem, gpr := fun _ => 0, pc := 4563402752, next_pc := 4563402756,
          hi := 0, lo := 0, cycles := 452984816, running := false } =
        { mem := loadedMem, gpr := fun _ => 0, pc := 4563402756, next_pc := 4563402760,
          hi := 0, lo := 0, cycles := 452984817, running := false } := by
    rw [step_unknown_gpr0 _ (by decide) rfl]
  have hsD :
      CPU.step
        { mem := loadedMem, gpr := fun _ => 0, pc := 4563402756, next_pc := 4563402760,
          hi := 0, lo := 0, cycles := 452984817, running := false } =
        { mem := loadedMem, gpr := Function.update (fun _ => 0) 31 4563402764,
          pc := 268435464, next_pc := 268435468, hi := 0, lo := 0, cycles := 452984818,
          running := false } := by
    rw [step_jal2 _ (by decide) rfl]
    ext
    all_goals rfl
  have hsE :
      CPU.step
        { mem := loadedMem, gpr := Function.update (fun _ => 0) 31 4563402764,
          pc := 268435464, next_pc := 268435468, hi := 0, lo := 0, cycles := 452984818,
          running := false } =
        { mem := loadedMem, gpr := Function.update (fun _ => 0) 31 4563402764,
          pc := 73786976295106510860, next_pc := 73786976295106510864, hi := 0, lo := 0,
          cycles := 452984819, running := false } := by
    rw [step_beq_back _ (by decide) (by decide)]
  have hw2 : ∀ j, j < 32765 →
      ¬(0x10000000 ≤ (73786976295106510860 + 4 * j) % 2 ^ 32 ∧
        (73786976295106510860 + 4 * j) % 2 ^ 32 < 0x14000000) := by
    intro j hj
    rw [h32]
    omega
  have hsF :
      CPU.step^[32765]
        { mem := loadedMem, gpr := Function.update (fun _ => 0) 31 4563402764,
          pc := 73786976295106510860, next_pc := 73786976295106510864, hi := 0, lo := 0,
          cycles := 452984819, running := false } =
        { mem := loadedMem, gpr := Function.update (fun _ => 0) 31 4563402764,
          pc := 73786976295106641920, next_pc := 73786976295106641924, hi := 0, lo := 0,
          cycles := 453017584, running := false } := by
    rw [step_nop_run 32765 _ loadedMem_rdram (by decide) rfl hw2]
  have hsG :
      CPU.step
        { mem := loadedMem, gpr := Function.update (fun _ => 0) 31 4563402764,
          pc := 73786976295106641920, next_pc := 73786976295106641924, hi := 0, lo := 0,
          cycles := 453017584, running := false } =
        { mem := loadedMem, gpr := Function.update (fun _ => 0) 31 4563402764,
          pc := 73786976295106641924, next_pc := 73786976295106641928, hi := 0, lo := 0,
          cycles := 453017585, running := false } := by
    rw [step_unknown_gpr0 _ (by decide) (by decide)]
  have hbound :
      (CPU.step
        { mem := loadedMem, gpr := Function.update (fun _ => 0) 31 4563402764,
          pc := 73786976295106641924, next_pc := 73786976295106641928, hi := 0, lo := 0,
          cycles := 453017585, running := false }).gpr 31 = 73786976295106641932 := by
    rw [step_jal2 _ (by decide) (by decide)]
    dsimp only
    rw [Function.update_same]
  have hrB := hsB ▸ reachable_iterate hreachA 452984816
  have hrC := hsC ▸ Reachable.step hrB
  have hrD := hsD ▸ Reachable.step hrC
  have hrE := hsE ▸ Reachable.step hrD
  have hrF := hsF ▸ reachable_iterate hrE 32765
  have hrG := hsG ▸ Reachable.step hrF
  refine ⟨_, Reachable.step hrG, ?_⟩
  rw [hbound]
  norm_num

/-- C10 (amended): every operation that writes a register masks or bounds
its result below `2^64` — immediate/register arithmetic, shifts, loads
(bounded by `2^32` for byte-valued memory), MFLO (given `lo < 2^64`) and
logical operations — with the single exception of the JAL/JALR link
write, which stores `pc + 8` unmasked.  Hence every `step()` taken from a
state whose registers are below `2^64`, whose memory cells are bytes,
whose `lo` is below `2^64`, and whose `pc + 8` is below `2^64` leaves all
32 registers in `[0, 2^64)`; once `pc` grows past `2^64 - 8` (see the
counterexample) a link write can exceed 64 bits. -/
theorem c10_register_width_conditional (c : CPU)
    (hg : ∀ j, c.gpr j < 2 ^ 64) (hlo : c.lo < 2 ^ 64)
    (hrd : ∀ j, c.mem.rdram j < 256) (hro : ∀ j, c.mem.rom j < 256)
    (hpc : c.pc + 8 < 2 ^ 64) :
    ∀ i, c.step.gpr i < 2 ^ 64 :=
  step_gpr_lt c hg hlo hrd hro hpc

/-- Witness for `c10_register_width_conditional`: one step from the
freshly constructed machine. -/
theorem c10_register_width_conditional_witness :
    (∀ j, (CPU.init N64Memory.init).gpr j < 2 ^ 64) ∧
    (CPU.init N64Memory.init).lo < 2 ^ 64 ∧
    (∀ j, (CPU.init N64Memory.init).mem.rdram j < 256) ∧
    (∀ j, (CPU.init N64Memory.init).mem.rom j < 256) ∧
    (CPU.init N64Memory.init).pc + 8 < 2 ^ 64 ∧
    (∀ i, (CPU.init N64Memory.init).step.gpr i < 2 ^ 64) :=
  ⟨fun _ => by norm_num [CPU.init], by norm_num [CPU.init],
   fun _ => by norm_num [CPU.init, N64Memory.init],
   fun _ => by norm_num [CPU.init, N64Memory.init],
   by norm_num [CPU.init],
   c10_register_width_conditional (CPU.init N64Memory.init)
     (fun _ => by norm_num [CPU.init]) (by norm_num [CPU.init])
     (fun _ => by norm_num [CPU.init, N64Memory.init])
     (fun _ => by norm_num [CPU.init, N64Memory.init])
     (by norm_num [CPU.init])⟩
